import Mathlib

/-!
Verification of the batch-transfer core of `spraay_tao/batch.py`.

The embedding models TAO amounts as exact rationals (`ℚ`), the external
bittensor address predicate as a boolean-valued parameter, and the external
chain client (balance queries, submission outcomes, block hashes, wall-clock
durations) as an oracle structure `ChainEnv`.  All definitions are translated
from `src/spraay_tao/batch.py`; line references are given in the doc comments.
-/

namespace SpraayTao

/-- Maximum recipients per batch transaction (batch.py line 36). -/
def MAX_BATCH_SIZE : ℕ := 199

/-- Minimum transfer amount in TAO, 0.0005 (batch.py line 39). -/
def MIN_TRANSFER_TAO : ℚ := 5 / 10000

/-- Service fee percent, 0.3 (batch.py line 45). -/
def SPRAAY_FEE_PERCENT : ℚ := 3 / 10

/-- Fixed service wallet address (batch.py line 46). -/
def SPRAAY_FEE_WALLET : String := "5CZjqeHFjmj39KuXanRApouyKFXokjazeor6h3bPoCzuzmJC"

/-- Minimum fee per batch, 0.001: below this no fee is charged (batch.py line 47). -/
def SPRAAY_MIN_FEE_TAO : ℚ := 1 / 1000

/-- A single payment recipient (batch.py lines 57-63); `amount` is in TAO. -/
structure Recipient where
  address : String
  amount : ℚ
  label : String := ""
  deriving DecidableEq

/-- Half-to-even rounding of a rational to an integer, the rounding used by
CPython's builtin `round`. -/
def pyRoundHalfEven (q : ℚ) : ℤ :=
  let f := ⌊q⌋
  if q - f < 1 / 2 then f
  else if 1 / 2 < q - f then f + 1
  else if f % 2 = 0 then f else f + 1

/-- Python's `round(q, 9)`: round to 9 decimal places (batch.py line 311). -/
def round9 (q : ℚ) : ℚ := (pyRoundHalfEven (q * 10 ^ 9) : ℚ) / 10 ^ 9

/-- `Recipient.validate` (batch.py lines 65-76).  The external address
predicate `is_valid_bittensor_address_or_public_key` is passed in as `va`. -/
def Recipient.validate (va : String → Bool) (r : Recipient) : List String :=
  (if va r.address then [] else ["Invalid ss58 address: " ++ r.address]) ++
  (if r.amount ≤ 0 then ["Amount must be positive, got " ++ toString r.amount] else []) ++
  (if r.amount < MIN_TRANSFER_TAO then
    ["Amount " ++ toString r.amount ++ " TAO below minimum " ++
      toString MIN_TRANSFER_TAO ++ " TAO"] else [])

/-- The per-recipient error wrapper of `validate_recipients` (batch.py line 267). -/
def wrapErr (i : ℕ) (r : Recipient) (err : String) : String :=
  let who := if r.label ≠ "" then r.label else r.address.take 12
  "Recipient " ++ toString (i + 1) ++ " (" ++ who ++ "...): " ++ err

/-- The duplicate-address error message of `validate_recipients`
(batch.py lines 272-274); `prev` and `i` are 0-based indexes. -/
def dupMsg (prev i : ℕ) (addr : String) : String :=
  "Duplicate address at positions " ++ toString (prev + 1) ++ " and " ++
    toString (i + 1) ++ ": " ++ addr.take 16 ++ "..."

/-- The loop of `validate_recipients` (batch.py lines 264-275).  `seen` models
the Python dict `seen_addresses`: `seen_addresses[r.address] = i` runs on every
iteration, which we mirror by consing the new binding in front (so a lookup
finds the most recent binding, exactly like a dict overwrite). -/
def validateLoop (va : String → Bool) : List Recipient → ℕ → List (String × ℕ) → List String
  | [], _, _ => []
  | r :: rest, i, seen =>
    (r.validate va).map (wrapErr i r) ++
    (match seen.lookup r.address with
     | some prev => [dupMsg prev i r.address]
     | none => []) ++
    validateLoop va rest (i + 1) ((r.address, i) :: seen)

/-- `validate_recipients` (batch.py lines 256-277). -/
def validate_recipients (va : String → Bool) (recipients : List Recipient) :
    Bool × List String :=
  let errors := validateLoop va recipients 0 []
  (errors.length == 0, errors)

/-- Worker for `chunk_recipients`, structurally recursive on a fuel argument
so that it computes by kernel reduction; `chunk_recipients` always supplies
enough fuel (the list length). -/
def chunkFuel : ℕ → List Recipient → ℕ → List (List Recipient)
  | _, _, 0 => []
  | _, [], _ + 1 => []
  | 0, _ :: _, _ + 1 => []
  | fuel + 1, r :: rest, k + 1 => (r :: rest.take k) :: chunkFuel fuel (rest.drop k) (k + 1)

/-- `chunk_recipients` (batch.py lines 280-287): the slices
`recipients[i : i + max_size]` for `i = 0, max_size, 2*max_size, ... < len`.
Each recursion step emits the slice `take max_size` and continues on
`drop max_size`; Python's `range` with step `0` raises, so `max_size = 0`
is mapped to the empty chunk list and excluded from every claim. -/
def chunk_recipients (recipients : List Recipient) (max_size : ℕ) : List (List Recipient) :=
  chunkFuel recipients.length recipients max_size

/-- `calculate_spraay_fee` (batch.py lines 290-313). -/
def calculate_spraay_fee (recipients : List Recipient) : Option Recipient :=
  if SPRAAY_FEE_WALLET = "" ∨ SPRAAY_FEE_PERCENT ≤ 0 then none
  else
    let total_amount := recipients.foldl (fun acc r => acc + r.amount) 0
    let fee_amount := total_amount * (SPRAAY_FEE_PERCENT / 100)
    if fee_amount < SPRAAY_MIN_FEE_TAO then none
    else some { address := SPRAAY_FEE_WALLET, amount := round9 fee_amount,
                label := "Spraay service fee" }

/-- `sum(r.amount for r in recipients)` (batch.py lines 303, 371, 448). -/
def sumAmounts (recipients : List Recipient) : ℚ :=
  recipients.foldl (fun acc r => acc + r.amount) 0

/-- The per-chunk service-fee accumulation loops of `estimate_fee`
(batch.py lines 375-379) and `batch_transfer` (lines 452-456). -/
def totalSpraayFee (chunks : List (List Recipient)) : ℚ :=
  chunks.foldl
    (fun acc c =>
      acc + (match calculate_spraay_fee c with
             | some fee_r => fee_r.amount
             | none => 0)) 0

/-- The recipient list of the batch call built by `_build_batch_call`
(batch.py lines 332-339): the user recipients, then, when `include_fee` and a
fee is due for this chunk, the synthetic fee recipient appended at the end. -/
def all_call_recipients (recipients : List Recipient) (include_fee : Bool) : List Recipient :=
  recipients ++
    (if include_fee then
      (match calculate_spraay_fee recipients with
       | some fee_recipient => [fee_recipient]
       | none => [])
     else [])

/-- The recipient lists of the batch calls submitted by `batch_transfer`, one
per chunk (batch.py lines 477 and 487: `_build_batch_call(subtensor, chunk,
keep_alive, mode)` with `include_fee` left at its default `True`). -/
def batch_transfer_calls (recipients : List Recipient) : List (List Recipient) :=
  (chunk_recipients recipients MAX_BATCH_SIZE).map (fun c => all_call_recipients c true)

/-- `BatchResult` (batch.py lines 84-97); amounts and durations are rationals,
`block_hash` and `extrinsic_hash` are optional chain references. -/
structure BatchResult where
  success : Bool
  message : String
  block_hash : Option String := none
  extrinsic_hash : Option String := none
  total_amount : ℚ := 0
  total_fee : ℚ := 0
  spraay_fee : ℚ := 0
  recipient_count : ℕ := 0
  duration_seconds : ℚ := 0
  failed_recipients : List String := []
  deriving DecidableEq

/-- `FeeEstimate` (batch.py lines 122-133). -/
structure FeeEstimate where
  estimated_fee : ℚ
  spraay_fee : ℚ
  total_amount : ℚ
  total_cost : ℚ
  recipient_count : ℕ
  batch_count : ℕ
  balance_sufficient : Bool
  current_balance : ℚ
  deriving DecidableEq

/-- The response object returned by the chain client's
`sign_and_send_extrinsic` (fields read in batch.py lines 499-515):
`getattr(response, "extrinsic_hash", None)` and
`getattr(response, "transaction_tao_fee", 0)` become optional/defaulted
fields. -/
structure ExtrinsicResponse where
  success : Bool
  message : String
  extrinsic_hash : Option String := none
  transaction_tao_fee : ℚ := 0
  deriving DecidableEq

/-- Outcome of one chunk's build-and-submit interaction with the chain client:
either a response object, or an exception raised anywhere inside the `try`
block (batch.py lines 485-531). -/
inductive SubmitOutcome where
  | resp (response : ExtrinsicResponse)
  | exn (msg : String)
  deriving DecidableEq

/-- The external collaborators of the executor, as an oracle: the bittensor
address predicate, the wallet's current on-chain balance in TAO, the
submission outcome of the k-th chunk, the current block hash, and the measured
wall-clock duration of the k-th chunk. -/
structure ChainEnv where
  va : String → Bool
  balance_tao : ℚ
  submit : ℕ → SubmitOutcome
  block_hash : String
  duration : ℕ → ℚ

/-- `estimate_fee` (batch.py lines 359-404), as a function of the recipient
list and the chain-client answers: `fee_info` is the payment projection for
the sample call built from the first chunk (`None` when the client returns a
falsy value, in which case line 389 falls back to 0.001), `current_balance`
the balance query result.  `chunks[0]` on an empty chunk list raises
`IndexError`, modelled by `none`. -/
def estimate_fee (recipients : List Recipient) (fee_info : Option ℚ)
    (current_balance : ℚ) : Option FeeEstimate :=
  let total_amount := sumAmounts recipients
  let chunks := chunk_recipients recipients MAX_BATCH_SIZE
  let total_spraay_fee := totalSpraayFee chunks
  match chunks with
  | [] => none
  | _first_chunk :: _ =>
    let fee_per_batch : ℚ := match fee_info with
      | some f => f
      | none => 1 / 1000
    let total_network_fee := fee_per_batch * (chunks.length : ℚ)
    let total_cost := total_amount + total_network_fee + total_spraay_fee
    some { estimated_fee := total_network_fee
           spraay_fee := total_spraay_fee
           total_amount := total_amount
           total_cost := total_cost
           recipient_count := recipients.length
           batch_count := chunks.length
           balance_sufficient := decide (current_balance ≥ total_cost)
           current_balance := current_balance }

/-- The message `"Validation failed with {n} errors:\n" + "\n".join(errors)`
(batch.py lines 440, 556). -/
def validationFailMsg (errors : List String) : String :=
  "Validation failed with " ++ toString errors.length ++ " errors:\n" ++
    String.intercalate "\n" errors

/-- The prefix `"Batch {chunk_idx + 1}/{len(chunks)}"` of the per-chunk result
messages (batch.py lines 503, 515, 526, 617, 626, 636). -/
def batchTag (idx n : ℕ) : String :=
  "Batch " ++ toString (idx + 1) ++ "/" ++ toString n

/-- The insufficiency message of `batch_transfer` (batch.py lines 464-468);
numeric formatting is rendered with `toString` in place of Python's
`:.4f`/`:.6f`. -/
def insufficientMsg (balance required total_amount total_spraay_fee : ℚ) : String :=
  "Insufficient balance: " ++ toString balance ++ " TAO available, but " ++
    toString required ++ " TAO needed (" ++ toString total_amount ++
    " transfers + " ++ toString total_spraay_fee ++ " Spraay fee)."

/-- One iteration of the submission loop of `batch_transfer`
(batch.py lines 477-531) for the chunk at index `idx` out of `n`. -/
def chunkResult (env : ChainEnv) (n idx : ℕ) (chunk : List Recipient) : BatchResult :=
  let chunk_amount := sumAmounts chunk
  let chunk_spraay_fee := match calculate_spraay_fee chunk with
    | some fee_r => fee_r.amount
    | none => 0
  match env.submit idx with
  | SubmitOutcome.exn msg =>
    { success := false
      message := batchTag idx n ++ " exception: " ++ msg
      total_amount := chunk_amount
      spraay_fee := chunk_spraay_fee
      recipient_count := chunk.length
      duration_seconds := env.duration idx }
  | SubmitOutcome.resp response =>
    if response.success then
      { success := true
        message := batchTag idx n ++ " completed successfully"
        block_hash := some env.block_hash
        extrinsic_hash := response.extrinsic_hash
        total_amount := chunk_amount
        total_fee := response.transaction_tao_fee
        spraay_fee := chunk_spraay_fee
        recipient_count := chunk.length
        duration_seconds := env.duration idx }
    else
      { success := false
        message := batchTag idx n ++ " failed: " ++ response.message
        total_amount := chunk_amount
        spraay_fee := chunk_spraay_fee
        recipient_count := chunk.length
        duration_seconds := env.duration idx }

/-- The `for chunk_idx, chunk in enumerate(chunks)` loop of `batch_transfer`
(batch.py lines 477-531). -/
def runChunks (env : ChainEnv) (n : ℕ) : ℕ → List (List Recipient) → List BatchResult
  | _, [] => []
  | idx, c :: rest => chunkResult env n idx c :: runChunks env n (idx + 1) rest

/-- `batch_transfer` (batch.py lines 407-533). -/
def batch_transfer (env : ChainEnv) (recipients : List Recipient) : List BatchResult :=
  let v := validate_recipients env.va recipients
  if v.1 = false then
    [{ success := false
       message := validationFailMsg v.2
       recipient_count := recipients.length }]
  else
    let total_amount := sumAmounts recipients
    let chunks := chunk_recipients recipients MAX_BATCH_SIZE
    let total_spraay_fee := totalSpraayFee chunks
    let required := total_amount + total_spraay_fee
    if env.balance_tao < required then
      [{ success := false
         message := insufficientMsg env.balance_tao required total_amount total_spraay_fee
         total_amount := total_amount
         spraay_fee := total_spraay_fee
         recipient_count := recipients.length }]
    else
      runChunks env chunks.length 0 chunks

/-- One iteration of the submission loop of `async_batch_transfer`
(batch.py lines 582-640): unlike the sync variant it sets no
`extrinsic_hash`, no `total_fee` and no `spraay_fee`, and its success
message is "completed" rather than "completed successfully". -/
def chunkResultAsync (env : ChainEnv) (n idx : ℕ) (chunk : List Recipient) : BatchResult :=
  let chunk_amount := sumAmounts chunk
  match env.submit idx with
  | SubmitOutcome.exn msg =>
    { success := false
      message := batchTag idx n ++ " exception: " ++ msg
      total_amount := chunk_amount
      recipient_count := chunk.length
      duration_seconds := env.duration idx }
  | SubmitOutcome.resp response =>
    if response.success then
      { success := true
        message := batchTag idx n ++ " completed"
        block_hash := some env.block_hash
        total_amount := chunk_amount
        recipient_count := chunk.length
        duration_seconds := env.duration idx }
    else
      { success := false
        message := batchTag idx n ++ " failed: " ++ response.message
        total_amount := chunk_amount
        recipient_count := chunk.length
        duration_seconds := env.duration idx }

/-- The chunk loop of `async_batch_transfer` (batch.py lines 582-640). -/
def runChunksAsync (env : ChainEnv) (n : ℕ) : ℕ → List (List Recipient) → List BatchResult
  | _, [] => []
  | idx, c :: rest => chunkResultAsync env n idx c :: runChunksAsync env n (idx + 1) rest

/-- `async_batch_transfer` (batch.py lines 536-642).  Its balance pre-flight
(lines 567-577) compares the balance to the transfer total only — no service
fee term — and its message omits the fee breakdown. -/
def async_batch_transfer (env : ChainEnv) (recipients : List Recipient) : List BatchResult :=
  let v := validate_recipients env.va recipients
  if v.1 = false then
    [{ success := false
       message := validationFailMsg v.2
       recipient_count := recipients.length }]
  else
    let total_amount := sumAmounts recipients
    if env.balance_tao < total_amount then
      [{ success := false
         message := "Insufficient balance: " ++ toString env.balance_tao ++
           " TAO available, but " ++ toString total_amount ++ " TAO needed."
         total_amount := total_amount
         recipient_count := recipients.length }]
    else
      let chunks := chunk_recipients recipients MAX_BATCH_SIZE
      runChunksAsync env chunks.length 0 chunks

/-! ### Helper lemmas about the chunk planner -/

theorem chunkFuel_zero_max (f : ℕ) (l : List Recipient) : chunkFuel f l 0 = [] := by
  cases l <;> cases f <;> rfl

theorem chunkFuel_nil (f k : ℕ) : chunkFuel f [] (k + 1) = [] := by
  cases f <;> rfl

theorem chunkFuel_succ (f k : ℕ) (r : Recipient) (rest : List Recipient) :
    chunkFuel (f + 1) (r :: rest) (k + 1) =
      (r :: rest.take k) :: chunkFuel f (rest.drop k) (k + 1) := rfl

theorem chunkFuel_congr :
    ∀ (f1 f2 : ℕ) (l : List Recipient) (m : ℕ), l.length ≤ f1 → l.length ≤ f2 →
      chunkFuel f1 l m = chunkFuel f2 l m := by
  intro f1
  induction f1 with
  | zero =>
    intro f2 l m h1 h2
    have hl : l = [] := List.eq_nil_of_length_eq_zero (Nat.le_zero.mp h1)
    subst hl
    cases m with
    | zero => rw [chunkFuel_zero_max, chunkFuel_zero_max]
    | succ k => rw [chunkFuel_nil, chunkFuel_nil]
  | succ g ih =>
    intro f2 l m h1 h2
    cases l with
    | nil =>
      cases m with
      | zero => rw [chunkFuel_zero_max, chunkFuel_zero_max]
      | succ k => rw [chunkFuel_nil, chunkFuel_nil]
    | cons r rest =>
      cases m with
      | zero => rw [chunkFuel_zero_max, chunkFuel_zero_max]
      | succ k =>
        cases f2 with
        | zero => simp at h2
        | succ h =>
          rw [chunkFuel_succ, chunkFuel_succ]
          have hd : (rest.drop k).length ≤ g := by
            simp only [List.length_drop]
            simp only [List.length_cons] at h1
            omega
          have hd2 : (rest.drop k).length ≤ h := by
            simp only [List.length_drop]
            simp only [List.length_cons] at h2
            omega
          rw [ih h (rest.drop k) (k + 1) hd hd2]

theorem chunk_recipients_nil (m : ℕ) : chunk_recipients [] m = [] := by
  unfold chunk_recipients
  cases m with
  | zero => rw [chunkFuel_zero_max]
  | succ k => rw [chunkFuel_nil]

theorem chunk_recipients_cons (k : ℕ) (r : Recipient) (rest : List Recipient) :
    chunk_recipients (r :: rest) (k + 1) =
      (r :: rest.take k) :: chunk_recipients (rest.drop k) (k + 1) := by
  unfold chunk_recipients
  rw [show (r :: rest).length = rest.length + 1 from rfl, chunkFuel_succ]
  congr 1
  exact chunkFuel_congr rest.length (rest.drop k).length (rest.drop k) (k + 1)
    (by simp) (le_refl _)

theorem chunk_recipients_length_aux :
    ∀ (n : ℕ) (l : List Recipient) (m : ℕ), l.length ≤ n → 0 < m →
      (chunk_recipients l m).length = (l.length + m - 1) / m := by
  intro n
  induction n with
  | zero =>
    intro l m hl hm
    have h : l = [] := List.eq_nil_of_length_eq_zero (Nat.le_zero.mp hl)
    subst h
    rw [chunk_recipients_nil]
    simp only [List.length_nil, List.length, Nat.zero_add]
    rw [Nat.div_eq_of_lt (by omega)]
  | succ n ih =>
    intro l m hl hm
    cases l with
    | nil =>
      rw [chunk_recipients_nil]
      simp only [List.length_nil, List.length, Nat.zero_add]
      rw [Nat.div_eq_of_lt (by omega)]
    | cons r rest =>
      cases m with
      | zero => omega
      | succ k =>
        rw [chunk_recipients_cons]
        simp only [List.length_cons]
        have hdl : (rest.drop k).length ≤ n := by
          simp only [List.length_drop]
          simp only [List.length_cons] at hl
          omega
        rw [ih (rest.drop k) (k + 1) hdl (Nat.succ_pos k)]
        simp only [List.length_drop]
        have harith : rest.length - k + (k + 1) - 1 = rest.length - k + k := by omega
        rw [harith]
        have harith2 : rest.length + 1 + (k + 1) - 1 = rest.length + (k + 1) := by omega
        rw [harith2, Nat.add_div_right _ (Nat.succ_pos k)]
        rcases le_or_lt k rest.length with hk | hk
        · have : rest.length - k + k = rest.length := by omega
          rw [this]
        · have h0 : rest.length - k = 0 := by omega
          rw [h0, Nat.zero_add, Nat.div_eq_of_lt (by omega),
            Nat.div_eq_of_lt (by omega)]

theorem chunk_recipients_length (l : List Recipient) (m : ℕ) (hm : 0 < m) :
    (chunk_recipients l m).length = (l.length + m - 1) / m :=
  chunk_recipients_length_aux l.length l m (le_refl _) hm

theorem chunk_recipients_flatten_aux :
    ∀ (n : ℕ) (l : List Recipient) (m : ℕ), l.length ≤ n → 0 < m →
      (chunk_recipients l m).flatten = l := by
  intro n
  induction n with
  | zero =>
    intro l m hl hm
    have h : l = [] := List.eq_nil_of_length_eq_zero (Nat.le_zero.mp hl)
    subst h
    rw [chunk_recipients_nil]
    rfl
  | succ n ih =>
    intro l m hl hm
    cases l with
    | nil => rw [chunk_recipients_nil]; rfl
    | cons r rest =>
      cases m with
      | zero => omega
      | succ k =>
        rw [chunk_recipients_cons]
        rw [List.flatten_cons]
        have hdl : (rest.drop k).length ≤ n := by
          simp only [List.length_drop]
          simp only [List.length_cons] at hl
          omega
        rw [ih (rest.drop k) (k + 1) hdl (Nat.succ_pos k)]
        simp only [List.cons_append, List.take_append_drop]

theorem chunk_recipients_flatten (l : List Recipient) (m : ℕ) (hm : 0 < m) :
    (chunk_recipients l m).flatten = l :=
  chunk_recipients_flatten_aux l.length l m (le_refl _) hm

theorem chunk_recipients_sizes_aux :
    ∀ (n : ℕ) (l : List Recipient) (m : ℕ), l.length ≤ n → 0 < m →
      ∀ c ∈ chunk_recipients l m, c.length ≤ m := by
  intro n
  induction n with
  | zero =>
    intro l m hl hm c hc
    have h : l = [] := List.eq_nil_of_length_eq_zero (Nat.le_zero.mp hl)
    subst h
    rw [chunk_recipients_nil] at hc
    simp at hc
  | succ n ih =>
    intro l m hl hm c hc
    cases l with
    | nil => rw [chunk_recipients_nil] at hc; simp at hc
    | cons r rest =>
      cases m with
      | zero => omega
      | succ k =>
        rw [chunk_recipients_cons] at hc
        rcases List.mem_cons.mp hc with h | h
        · subst h
          simp only [List.length_cons, List.length_take]
          omega
        · have hdl : (rest.drop k).length ≤ n := by
            simp only [List.length_drop]
            simp only [List.length_cons] at hl
            omega
          exact ih (rest.drop k) (k + 1) hdl (Nat.succ_pos k) c h

theorem chunk_recipients_sizes (l : List Recipient) (m : ℕ) (hm : 0 < m) :
    ∀ c ∈ chunk_recipients l m, c.length ≤ m :=
  chunk_recipients_sizes_aux l.length l m (le_refl _) hm

theorem chunk_recipients_getElem_aux :
    ∀ (n : ℕ) (l : List Recipient) (m i : ℕ), l.length ≤ n → 0 < m →
      ((chunk_recipients l m)[i / m]?).bind (fun ck => ck[i % m]?) = l[i]? := by
  intro n
  induction n with
  | zero =>
    intro l m i hl hm
    have h : l = [] := List.eq_nil_of_length_eq_zero (Nat.le_zero.mp hl)
    subst h
    rw [chunk_recipients_nil]
    simp
  | succ n ih =>
    intro l m i hl hm
    cases l with
    | nil => rw [chunk_recipients_nil]; simp
    | cons r rest =>
      cases m with
      | zero => omega
      | succ k =>
        rw [chunk_recipients_cons]
        rcases Nat.lt_or_ge i (k + 1) with hi | hi
        · rw [Nat.div_eq_of_lt hi, Nat.mod_eq_of_lt hi]
          simp only [List.getElem?_cons_zero, Option.some_bind]
          have htake : r :: rest.take k = (r :: rest).take (k + 1) := rfl
          rw [htake, List.getElem?_take]
          simp [hi]
        · have hstep : i / (k + 1) = (i - (k + 1)) / (k + 1) + 1 :=
            Nat.div_eq_sub_div (Nat.succ_pos k) hi
          have hmod : i % (k + 1) = (i - (k + 1)) % (k + 1) := Nat.mod_eq_sub_mod hi
          rw [hstep, hmod]
          simp only [List.getElem?_cons_succ]
          have hdl : (rest.drop k).length ≤ n := by
            simp only [List.length_drop]
            simp only [List.length_cons] at hl
            omega
          rw [ih (rest.drop k) (k + 1) (i - (k + 1)) hdl (Nat.succ_pos k)]
          have hdrop : rest.drop k = (r :: rest).drop (k + 1) := rfl
          rw [hdrop, List.getElem?_drop]
          congr 1
          omega

theorem chunk_recipients_getElem (l : List Recipient) (m i : ℕ) (hm : 0 < m) :
    ((chunk_recipients l m)[i / m]?).bind (fun ck => ck[i % m]?) = l[i]? :=
  chunk_recipients_getElem_aux l.length l m i (le_refl _) hm

theorem chunk_recipients_ne_nil (l : List Recipient) (m : ℕ) (hl : l ≠ []) (hm : 0 < m) :
    chunk_recipients l m ≠ [] := by
  cases l with
  | nil => exact absurd rfl hl
  | cons r rest =>
    cases m with
    | zero => omega
    | succ k => rw [chunk_recipients_cons]; exact List.cons_ne_nil _ _

/-! ### Helper lemmas about the submission loops -/

theorem runChunks_length (env : ChainEnv) (n : ℕ) :
    ∀ (cs : List (List Recipient)) (i : ℕ), (runChunks env n i cs).length = cs.length := by
  intro cs
  induction cs with
  | nil => intro i; rfl
  | cons c rest ih =>
    intro i
    simp only [runChunks, List.length_cons, ih]

theorem runChunks_getElem (env : ChainEnv) (n : ℕ) :
    ∀ (cs : List (List Recipient)) (i0 i : ℕ),
      (runChunks env n i0 cs)[i]? = (cs[i]?).map (fun c => chunkResult env n (i0 + i) c) := by
  intro cs
  induction cs with
  | nil => intro i0 i; simp [runChunks]
  | cons c rest ih =>
    intro i0 i
    cases i with
    | zero => simp [runChunks]
    | succ j =>
      simp only [runChunks, List.getElem?_cons_succ, ih (i0 + 1) j]
      have : i0 + 1 + j = i0 + (j + 1) := by omega
      rw [this]

/-! ### Helper lemmas about amounts and rounding -/

theorem foldl_add_amount (l : List Recipient) :
    ∀ a : ℚ, l.foldl (fun acc r => acc + r.amount) a =
      a + l.foldl (fun acc r => acc + r.amount) 0 := by
  induction l with
  | nil => intro a; simp
  | cons r rest ih =>
    intro a
    simp only [List.foldl_cons]
    rw [ih (a + r.amount), ih (0 + r.amount)]
    ring

theorem sumAmounts_cons (r : Recipient) (l : List Recipient) :
    sumAmounts (r :: l) = r.amount + sumAmounts l := by
  simp only [sumAmounts, List.foldl_cons]
  rw [foldl_add_amount l (0 + r.amount)]
  ring

theorem sumAmounts_replicate (n : ℕ) (r : Recipient) :
    sumAmounts (List.replicate n r) = n * r.amount := by
  induction n with
  | zero => simp [sumAmounts]
  | succ k ih =>
    rw [List.replicate_succ, sumAmounts_cons, ih]
    push_cast
    ring

theorem pyRoundHalfEven_intCast (z : ℤ) : pyRoundHalfEven (z : ℚ) = z := by
  simp only [pyRoundHalfEven, Int.floor_intCast, sub_self]
  rw [if_pos (by norm_num)]

theorem pyRoundHalfEven_ge_floor (q : ℚ) : ⌊q⌋ ≤ pyRoundHalfEven q := by
  simp only [pyRoundHalfEven]
  split
  · omega
  · split
    · omega
    · split <;> omega

theorem round9_min_fee (q : ℚ) (h : SPRAAY_MIN_FEE_TAO ≤ q) :
    SPRAAY_MIN_FEE_TAO ≤ round9 q := by
  have h1 : (10 ^ 6 : ℤ) ≤ ⌊q * 10 ^ 9⌋ := by
    rw [Int.le_floor]
    push_cast
    unfold SPRAAY_MIN_FEE_TAO at h
    nlinarith
  have h2 : ⌊q * 10 ^ 9⌋ ≤ pyRoundHalfEven (q * 10 ^ 9) := pyRoundHalfEven_ge_floor _
  have h3 : (10 ^ 6 : ℚ) ≤ (pyRoundHalfEven (q * 10 ^ 9) : ℚ) := by
    exact_mod_cast le_trans h1 h2
  unfold SPRAAY_MIN_FEE_TAO round9
  rw [div_le_div_iff₀ (by norm_num) (by norm_num)]
  nlinarith

theorem calculate_spraay_fee_eq (recipients : List Recipient) :
    calculate_spraay_fee recipients =
      if sumAmounts recipients * (SPRAAY_FEE_PERCENT / 100) < SPRAAY_MIN_FEE_TAO then none
      else some { address := SPRAAY_FEE_WALLET,
                  amount := round9 (sumAmounts recipients * (SPRAAY_FEE_PERCENT / 100)),
                  label := "Spraay service fee" } := by
  have hw : ¬(SPRAAY_FEE_WALLET = "" ∨ SPRAAY_FEE_PERCENT ≤ 0) := by
    push_neg
    refine ⟨by decide, ?_⟩
    norm_num [SPRAAY_FEE_PERCENT]
  unfold calculate_spraay_fee
  rw [if_neg hw]
  rfl

theorem round9_intMul (q : ℚ) (z : ℤ) (hz : q * 10 ^ 9 = (z : ℚ)) :
    round9 q = (z : ℚ) / 10 ^ 9 := by
  unfold round9
  rw [hz, pyRoundHalfEven_intCast]

/-!
### Claim theorems
-/

/-- C6: for every recipient list and positive `max_size`, the planner produces
exactly `⌈len / max_size⌉` chunks (as naturals, `(len + max_size - 1) / max_size`),
each chunk has length at most `max_size`, recipient `i` lands in chunk
`i / max_size` at offset `i % max_size`, and concatenating all chunks
reproduces the original list in order. -/
theorem c6_chunk_plan (l : List Recipient) (m : ℕ) (hm : 0 < m) :
    (chunk_recipients l m).length = (l.length + m - 1) / m ∧
    (∀ ch ∈ chunk_recipients l m, ch.length ≤ m) ∧
    (∀ i : ℕ, ((chunk_recipients l m)[i / m]?).bind (fun ck => ck[i % m]?) = l[i]?) ∧
    (chunk_recipients l m).flatten = l :=
  ⟨chunk_recipients_length l m hm, chunk_recipients_sizes l m hm,
   fun i => chunk_recipients_getElem l m i hm, chunk_recipients_flatten l m hm⟩

def c6rs : List Recipient :=
  [{ address := "a1", amount := 1 }, { address := "a2", amount := 1 },
   { address := "a3", amount := 1 }, { address := "a4", amount := 1 },
   { address := "a5", amount := 1 }]

/-- Witness for C6 at a 5-element list with chunk size 2. -/
theorem c6_chunk_plan_witness :
    (0 : ℕ) < 2 ∧ (chunk_recipients c6rs 2).length = 3 ∧
      (chunk_recipients c6rs 2).flatten = c6rs := by
  refine ⟨by norm_num, ?_, (c6_chunk_plan c6rs 2 (by norm_num)).2.2.2⟩
  rw [(c6_chunk_plan c6rs 2 (by norm_num)).1]
  rfl

/-- C10: on the empty recipient list the estimator does not produce a
`FeeEstimate`: sampling the first chunk of the empty chunk list fails
(Python raises `IndexError` at `chunks[0]`, modelled as `none`), whatever
the fee projection and balance would have been. -/
theorem c10_estimate_empty (fee_info : Option ℚ) (current_balance : ℚ) :
    estimate_fee [] fee_info current_balance = none := rfl

def c4rs : List Recipient :=
  [{ address := "5FHneW46xGXgs5mUiveU4sbTy", amount := 3333333333 / 10000000000 }]

/-- C4 counterexample: for the single recipient with amount 0.3333333333 TAO
the fee base is `T * 0.3 / 100 = 0.0009999999999`, whose 9-decimal rounding is
exactly 0.001 — at least the minimum fee threshold — yet the calculator
produces no fee, because the code compares the *unrounded* value against the
threshold.  Fees are enabled (wallet set, percent positive) and the list is
non-empty, so the claim as stated predicts a fee here. -/
theorem c4_counterexample :
    c4rs ≠ [] ∧ SPRAAY_FEE_WALLET ≠ "" ∧ 0 < SPRAAY_FEE_PERCENT ∧
    SPRAAY_MIN_FEE_TAO ≤ round9 (sumAmounts c4rs * (SPRAAY_FEE_PERCENT / 100)) ∧
    calculate_spraay_fee c4rs = none := by
  have hsum : sumAmounts c4rs = 3333333333 / 10000000000 := by
    norm_num [sumAmounts, c4rs]
  have hq : sumAmounts c4rs * (SPRAAY_FEE_PERCENT / 100) = 9999999999 / 10000000000000 := by
    rw [hsum]
    norm_num [SPRAAY_FEE_PERCENT]
  have hfl : ⌊(9999999999 / 10000 : ℚ)⌋ = 999999 := by
    rw [Int.floor_eq_iff]
    constructor
    · push_cast
      norm_num
    · push_cast
      norm_num
  have hround : pyRoundHalfEven (9999999999 / 10000 : ℚ) = 1000000 := by
    have h1 : ¬((9999999999 / 10000 : ℚ) - ((999999 : ℤ) : ℚ) < 1 / 2) := by
      push_cast
      norm_num
    have h2 : (1 / 2 : ℚ) < (9999999999 / 10000 : ℚ) - ((999999 : ℤ) : ℚ) := by
      push_cast
      norm_num
    simp only [pyRoundHalfEven, hfl]
    rw [if_neg h1, if_pos h2]
    norm_num
  have hr9 : round9 (9999999999 / 10000000000000 : ℚ) = 1 / 1000 := by
    unfold round9
    rw [show (9999999999 / 10000000000000 : ℚ) * 10 ^ 9 = 9999999999 / 10000 by norm_num,
      hround]
    norm_num
  refine ⟨by simp [c4rs], by decide, by norm_num [SPRAAY_FEE_PERCENT], ?_, ?_⟩
  · rw [hq, hr9]
    norm_num [SPRAAY_MIN_FEE_TAO]
  · rw [calculate_spraay_fee_eq, if_pos]
    rw [hq]
    norm_num [SPRAAY_MIN_FEE_TAO]

/-- C4 (amended): for every non-empty recipient list with total amount `T`,
the calculator produces the fee `round(T * fee_percent / 100, 9)` exactly when
the *unrounded* value `T * fee_percent / 100` is at least the minimum fee
threshold; otherwise it produces no fee at all.  (The fee wallet and percent
are set, so the disabled branches are vacuous.) -/
theorem c4_amended_fee_threshold (rs : List Recipient) (_hne : rs ≠ []) :
    (SPRAAY_FEE_WALLET ≠ "" ∧ 0 < SPRAAY_FEE_PERCENT) ∧
    (sumAmounts rs * (SPRAAY_FEE_PERCENT / 100) < SPRAAY_MIN_FEE_TAO →
      calculate_spraay_fee rs = none) ∧
    (SPRAAY_MIN_FEE_TAO ≤ sumAmounts rs * (SPRAAY_FEE_PERCENT / 100) →
      calculate_spraay_fee rs =
        some { address := SPRAAY_FEE_WALLET,
               amount := round9 (sumAmounts rs * (SPRAAY_FEE_PERCENT / 100)),
               label := "Spraay service fee" }) := by
  refine ⟨⟨by decide, by norm_num [SPRAAY_FEE_PERCENT]⟩, ?_, ?_⟩
  · intro hlt
    rw [calculate_spraay_fee_eq, if_pos hlt]
  · intro hge
    rw [calculate_spraay_fee_eq, if_neg (not_lt.mpr hge)]

def c4wrs : List Recipient := [{ address := "5FHneW46xGXgs5mU", amount := 10 }]

/-- Witness for C4 (amended) at a single 10-TAO recipient: the fee base is
0.03 and the calculator emits the synthetic fee recipient. -/
theorem c4_amended_fee_threshold_witness :
    c4wrs ≠ [] ∧
    calculate_spraay_fee c4wrs =
      some { address := SPRAAY_FEE_WALLET,
             amount := round9 (sumAmounts c4wrs * (SPRAAY_FEE_PERCENT / 100)),
             label := "Spraay service fee" } := by
  refine ⟨by simp [c4wrs], ?_⟩
  apply (c4_amended_fee_threshold c4wrs (by simp [c4wrs])).2.2
  norm_num [sumAmounts, c4wrs, SPRAAY_FEE_PERCENT, SPRAAY_MIN_FEE_TAO]

/-- C9: whenever the fee calculator produces a synthetic fee recipient, that
recipient is addressed to the fixed service wallet, its amount is at least the
minimum chargeable fee 0.001 TAO, which is positive and at least the minimum
transfer amount 0.0005 TAO, and consequently it passes per-recipient
validation under any address predicate that accepts the service wallet. -/
theorem c9_fee_recipient_validates (rs : List Recipient) (f : Recipient)
    (h : calculate_spraay_fee rs = some f) :
    f.address = SPRAAY_FEE_WALLET ∧
    SPRAAY_MIN_FEE_TAO ≤ f.amount ∧
    0 < SPRAAY_MIN_FEE_TAO ∧ MIN_TRANSFER_TAO ≤ SPRAAY_MIN_FEE_TAO ∧
    0 < f.amount ∧ MIN_TRANSFER_TAO ≤ f.amount ∧
    (∀ va : String → Bool, va SPRAAY_FEE_WALLET = true → f.validate va = []) := by
  rw [calculate_spraay_fee_eq] at h
  by_cases hlt : sumAmounts rs * (SPRAAY_FEE_PERCENT / 100) < SPRAAY_MIN_FEE_TAO
  · rw [if_pos hlt] at h
    exact absurd h (by simp)
  · rw [if_neg hlt] at h
    have hf : f = { address := SPRAAY_FEE_WALLET,
                    amount := round9 (sumAmounts rs * (SPRAAY_FEE_PERCENT / 100)),
                    label := "Spraay service fee" } := (Option.some.inj h).symm
    subst hf
    have hge : SPRAAY_MIN_FEE_TAO ≤ round9 (sumAmounts rs * (SPRAAY_FEE_PERCENT / 100)) :=
      round9_min_fee _ (not_lt.mp hlt)
    have hmin0 : (0 : ℚ) < SPRAAY_MIN_FEE_TAO := by norm_num [SPRAAY_MIN_FEE_TAO]
    have hmt : MIN_TRANSFER_TAO ≤ SPRAAY_MIN_FEE_TAO := by
      norm_num [MIN_TRANSFER_TAO, SPRAAY_MIN_FEE_TAO]
    refine ⟨rfl, hge, hmin0, hmt, lt_of_lt_of_le hmin0 hge,
      le_trans hmt hge, ?_⟩
    intro va hva
    unfold Recipient.validate
    rw [if_pos hva, if_neg (not_le.mpr (lt_of_lt_of_le hmin0 hge)),
      if_neg (not_lt.mpr (le_trans hmt hge))]
    rfl

def c9rs : List Recipient := [{ address := "5GrwvaEF5zXb26Fz", amount := 10 }]

def c9fee : Recipient :=
  { address := SPRAAY_FEE_WALLET, amount := 3 / 100, label := "Spraay service fee" }

/-- Witness for C9: the fee recipient produced for a single 10-TAO recipient
has amount 0.03 and validates cleanly. -/
theorem c9_fee_recipient_validates_witness :
    calculate_spraay_fee c9rs = some c9fee ∧
      c9fee.validate (fun _ => true) = [] := by
  have hsum : sumAmounts c9rs = 10 := by norm_num [sumAmounts, c9rs]
  have h : calculate_spraay_fee c9rs = some c9fee := by
    rw [calculate_spraay_fee_eq, if_neg]
    · rw [hsum]
      unfold c9fee
      congr 1
      rw [show (10 : ℚ) * (SPRAAY_FEE_PERCENT / 100) = 3 / 100 by norm_num [SPRAAY_FEE_PERCENT]]
      rw [round9_intMul (3 / 100) 30000000 (by norm_num)]
      norm_num
    · rw [hsum]
      norm_num [SPRAAY_FEE_PERCENT, SPRAAY_MIN_FEE_TAO]
  exact ⟨h, (c9_fee_recipient_validates c9rs c9fee h).2.2.2.2.2.2 (fun _ => true) rfl⟩

def c1r : Recipient := { address := "5Addr", amount := 1 }

def c1rs : List Recipient := List.replicate 200 c1r

set_option maxRecDepth 40000 in
/-- C1 counterexample: 200 one-TAO recipients split into 2 chunks, and the
*first* chunk (not the last) already carries a synthesized fee recipient as
its last entry — its call list has 200 entries (199 user transfers plus the
fee) and ends at the service wallet.  This contradicts the claim that chunks
other than the last carry no fee entry. -/
theorem c1_counterexample :
    (batch_transfer_calls c1rs).length = 2 ∧
    ((batch_transfer_calls c1rs)[0]?).map List.length = some 200 ∧
    ((batch_transfer_calls c1rs)[0]?).map (fun ch => ch.getLast?.map Recipient.address) =
      some (some SPRAAY_FEE_WALLET) := by
  refine ⟨?_, ?_, ?_⟩
  · with_unfolding_all rfl
  · with_unfolding_all rfl
  · with_unfolding_all rfl

/-- C1 (amended): *every* chunk of a run — not only the last — carries its own
synthesized fee recipient, computed from that chunk's total and appended as
the last entry of that chunk's call, unless the chunk's computed fee is below
the minimum threshold (the fee-disabled branches are vacuous since the wallet
and percent constants are set). -/
theorem c1_amended_every_chunk_fee (rs : List Recipient) (i : ℕ) (ch : List Recipient)
    (hc : (chunk_recipients rs MAX_BATCH_SIZE)[i]? = some ch) :
    (batch_transfer_calls rs)[i]? = some (all_call_recipients ch true) ∧
    (∀ f, calculate_spraay_fee ch = some f →
      all_call_recipients ch true = ch ++ [f] ∧ f.address = SPRAAY_FEE_WALLET ∧
      (all_call_recipients ch true).getLast? = some f) ∧
    (calculate_spraay_fee ch = none → all_call_recipients ch true = ch) ∧
    (calculate_spraay_fee ch = none ↔
      sumAmounts ch * (SPRAAY_FEE_PERCENT / 100) < SPRAAY_MIN_FEE_TAO) := by
  refine ⟨?_, ?_, ?_, ?_⟩
  · unfold batch_transfer_calls
    rw [List.getElem?_map, hc]
    rfl
  · intro f hf
    have happ : all_call_recipients ch true = ch ++ [f] := by
      unfold all_call_recipients
      rw [if_pos rfl, hf]
    have haddr : f.address = SPRAAY_FEE_WALLET := by
      rw [calculate_spraay_fee_eq] at hf
      by_cases hlt : sumAmounts ch * (SPRAAY_FEE_PERCENT / 100) < SPRAAY_MIN_FEE_TAO
      · rw [if_pos hlt] at hf
        exact absurd hf (by simp)
      · rw [if_neg hlt] at hf
        rw [← Option.some.inj hf]
    refine ⟨happ, haddr, ?_⟩
    rw [happ]
    exact List.getLast?_concat ch
  · intro hn
    unfold all_call_recipients
    rw [if_pos rfl, hn]
    simp
  · rw [calculate_spraay_fee_eq]
    by_cases hlt : sumAmounts ch * (SPRAAY_FEE_PERCENT / 100) < SPRAAY_MIN_FEE_TAO
    · rw [if_pos hlt]
      simp [hlt]
    · rw [if_neg hlt]
      simp [hlt]

def c1wrs : List Recipient := [{ address := "5HGjWAeFDfFCWPsj", amount := 10 }]

def c1wfee : Recipient :=
  { address := SPRAAY_FEE_WALLET, amount := 3 / 100, label := "Spraay service fee" }

/-- Witness for C1 (amended) on a single-chunk run: the chunk's call is its
recipients plus the fee appended last. -/
theorem c1_amended_every_chunk_fee_witness :
    (batch_transfer_calls c1wrs)[0]? = some (all_call_recipients c1wrs true) ∧
    all_call_recipients c1wrs true = c1wrs ++ [c1wfee] := by
  have hc : (chunk_recipients c1wrs MAX_BATCH_SIZE)[0]? = some c1wrs := by
    with_unfolding_all rfl
  have hf : calculate_spraay_fee c1wrs = some c1wfee := by
    rw [calculate_spraay_fee_eq, if_neg]
    · have hsum : sumAmounts c1wrs = 10 := by norm_num [sumAmounts, c1wrs]
      rw [hsum]
      unfold c1wfee
      congr 1
      rw [show (10 : ℚ) * (SPRAAY_FEE_PERCENT / 100) = 3 / 100 by norm_num [SPRAAY_FEE_PERCENT]]
      rw [round9_intMul (3 / 100) 30000000 (by norm_num)]
      norm_num
    · have hsum : sumAmounts c1wrs = 10 := by norm_num [sumAmounts, c1wrs]
      rw [hsum]
      norm_num [SPRAAY_FEE_PERCENT, SPRAAY_MIN_FEE_TAO]
  exact ⟨(c1_amended_every_chunk_fee c1wrs 0 c1wrs hc).1,
         ((c1_amended_every_chunk_fee c1wrs 0 c1wrs hc).2.1 c1wfee hf).1⟩

theorem estimate_fee_eval (rs : List Recipient) (f bal : ℚ) (hne : rs ≠ []) :
    estimate_fee rs (some f) bal =
      some { estimated_fee := f * ((chunk_recipients rs MAX_BATCH_SIZE).length : ℚ)
             spraay_fee := totalSpraayFee (chunk_recipients rs MAX_BATCH_SIZE)
             total_amount := sumAmounts rs
             total_cost := sumAmounts rs +
               f * ((chunk_recipients rs MAX_BATCH_SIZE).length : ℚ) +
               totalSpraayFee (chunk_recipients rs MAX_BATCH_SIZE)
             recipient_count := rs.length
             batch_count := (chunk_recipients rs MAX_BATCH_SIZE).length
             balance_sufficient := decide (bal ≥ sumAmounts rs +
               f * ((chunk_recipients rs MAX_BATCH_SIZE).length : ℚ) +
               totalSpraayFee (chunk_recipients rs MAX_BATCH_SIZE))
             current_balance := bal } := by
  have hch : chunk_recipients rs MAX_BATCH_SIZE ≠ [] :=
    chunk_recipients_ne_nil rs MAX_BATCH_SIZE hne (by norm_num [MAX_BATCH_SIZE])
  obtain ⟨c0, cr, hc⟩ : ∃ c0 cr, chunk_recipients rs MAX_BATCH_SIZE = c0 :: cr := by
    cases hx : chunk_recipients rs MAX_BATCH_SIZE with
    | nil => exact absurd hx hch
    | cons a b => exact ⟨a, b, rfl⟩
  unfold estimate_fee
  rw [hc]

def c7example : List Recipient :=
  [{ address := "5FHneW46xGXgsBob", amount := 10 },
   { address := "5GrwvaEF5zAlice", amount := 5 }]

/-- C7: for every non-empty recipient list, the estimator reports the network
fee as the chain client's projection for the first chunk times the chunk
count, the service fee as the sum of per-chunk service fees, the total cost as
transfer total plus network fee plus service fee, and `balance_sufficient`
holds exactly when the balance is at least the total cost; in particular, for
recipients of 10 and 5 TAO at the 0.3 percent fee the service fee is 0.045 and
with balance 10 and any non-negative network fee `balance_sufficient` is
false. -/
theorem c7_estimate_reports (rs : List Recipient) (f bal : ℚ) (hne : rs ≠ []) :
    (∃ est, estimate_fee rs (some f) bal = some est ∧
      est.estimated_fee = f * ((chunk_recipients rs MAX_BATCH_SIZE).length : ℚ) ∧
      est.spraay_fee = totalSpraayFee (chunk_recipients rs MAX_BATCH_SIZE) ∧
      est.total_amount = sumAmounts rs ∧
      est.total_cost = est.total_amount + est.estimated_fee + est.spraay_fee ∧
      est.batch_count = (chunk_recipients rs MAX_BATCH_SIZE).length ∧
      est.current_balance = bal ∧
      (est.balance_sufficient = true ↔ est.total_cost ≤ bal)) ∧
    (0 ≤ f →
      ∃ est2, estimate_fee c7example (some f) 10 = some est2 ∧
        est2.spraay_fee = 9 / 200 ∧ est2.total_amount = 15 ∧
        est2.balance_sufficient = false) := by
  constructor
  · refine ⟨_, estimate_fee_eval rs f bal hne, rfl, rfl, rfl, rfl, rfl, rfl, ?_⟩
    rw [decide_eq_true_iff]
  · intro hf
    have hc2 : chunk_recipients c7example MAX_BATCH_SIZE = [c7example] := by
      with_unfolding_all rfl
    have hsum : sumAmounts c7example = 15 := by norm_num [sumAmounts, c7example]
    have hfee2 : calculate_spraay_fee c7example =
        some { address := SPRAAY_FEE_WALLET, amount := 9 / 200,
               label := "Spraay service fee" } := by
      rw [calculate_spraay_fee_eq, if_neg]
      · rw [hsum, show (15 : ℚ) * (SPRAAY_FEE_PERCENT / 100) = 9 / 200 by
          norm_num [SPRAAY_FEE_PERCENT]]
        rw [round9_intMul (9 / 200) 45000000 (by norm_num)]
        norm_num
      · rw [hsum]
        norm_num [SPRAAY_FEE_PERCENT, SPRAAY_MIN_FEE_TAO]
    have hts : totalSpraayFee (chunk_recipients c7example MAX_BATCH_SIZE) = 9 / 200 := by
      rw [hc2]
      unfold totalSpraayFee
      simp only [List.foldl_cons, List.foldl_nil, hfee2]
      norm_num
    refine ⟨_, estimate_fee_eval c7example f 10 (by simp [c7example]), ?_, ?_, ?_⟩
    · exact hts
    · exact hsum
    · rw [decide_eq_false_iff_not]
      rw [hts, hsum, hc2]
      simp only [List.length_cons, List.length_nil, ge_iff_le, not_le]
      push_cast
      linarith

/-- Witness for C7 at a single recipient, network fee 0.01 and balance 10. -/
theorem c7_estimate_reports_witness :
    ∃ est, estimate_fee c9rs (some (1 / 100)) 10 = some est ∧
      est.total_amount = sumAmounts c9rs := by
  obtain ⟨⟨est, h1, _, _, h4, _⟩, _⟩ :=
    c7_estimate_reports c9rs (1 / 100) 10 (by simp [c9rs])
  exact ⟨est, h1, h4⟩

/-- C8: when validation fails, both execute variants return exactly one
synthetic failed `BatchResult` whose message summarizes all validation errors,
and the outcome is independent of every chain-client answer (balance,
submission outcomes, block hash, durations) — no chain interaction influences
it and no chunk is submitted. -/
theorem c8_validation_abort (env env2 : ChainEnv) (rs : List Recipient)
    (hva : env2.va = env.va)
    (hv : (validate_recipients env.va rs).1 = false) :
    batch_transfer env rs =
      [{ success := false
         message := validationFailMsg (validate_recipients env.va rs).2
         recipient_count := rs.length }] ∧
    async_batch_transfer env rs = batch_transfer env rs ∧
    batch_transfer env2 rs = batch_transfer env rs ∧
    async_batch_transfer env2 rs = batch_transfer env rs := by
  have h1 : batch_transfer env rs =
      [{ success := false
         message := validationFailMsg (validate_recipients env.va rs).2
         recipient_count := rs.length }] := by
    unfold batch_transfer
    rw [if_pos hv]
  have h2 : async_batch_transfer env rs =
      [{ success := false
         message := validationFailMsg (validate_recipients env.va rs).2
         recipient_count := rs.length }] := by
    unfold async_batch_transfer
    rw [if_pos hv]
  have hv2 : (validate_recipients env2.va rs).1 = false := by rw [hva]; exact hv
  have h3 : batch_transfer env2 rs =
      [{ success := false
         message := validationFailMsg (validate_recipients env2.va rs).2
         recipient_count := rs.length }] := by
    unfold batch_transfer
    rw [if_pos hv2]
  have h4 : async_batch_transfer env2 rs =
      [{ success := false
         message := validationFailMsg (validate_recipients env2.va rs).2
         recipient_count := rs.length }] := by
    unfold async_batch_transfer
    rw [if_pos hv2]
  refine ⟨h1, by rw [h1, h2], by rw [h1, h3, hva], by rw [h1, h4, hva]⟩

def c8env : ChainEnv :=
  { va := fun _ => false
    balance_tao := 100
    submit := fun _ => SubmitOutcome.resp { success := true, message := "ok" }
    block_hash := "bh"
    duration := fun _ => 0 }

def c8rs : List Recipient := [{ address := "bad", amount := 1 }]

/-- Witness for C8: with an address predicate that rejects everything, both
variants return the single validation-failure result. -/
theorem c8_validation_abort_witness :
    batch_transfer c8env c8rs =
      [{ success := false
         message := validationFailMsg (validate_recipients c8env.va c8rs).2
         recipient_count := c8rs.length }] ∧
    async_batch_transfer c8env c8rs = batch_transfer c8env c8rs :=
  ⟨(c8_validation_abort c8env c8env c8rs rfl (by with_unfolding_all rfl)).1,
   (c8_validation_abort c8env c8env c8rs rfl (by with_unfolding_all rfl)).2.1⟩

theorem runChunks_getElem_zero (env : ChainEnv) (n : ℕ) (cs : List (List Recipient)) (i : ℕ) :
    (runChunks env n 0 cs)[i]? = (cs[i]?).map (fun ck => chunkResult env n i ck) := by
  rw [runChunks_getElem env n cs 0 i]
  simp only [Nat.zero_add]

theorem batch_transfer_run (env : ChainEnv) (rs : List Recipient)
    (hv : (validate_recipients env.va rs).1 = true)
    (hb : ¬ env.balance_tao <
      sumAmounts rs + totalSpraayFee (chunk_recipients rs MAX_BATCH_SIZE)) :
    batch_transfer env rs =
      runChunks env (chunk_recipients rs MAX_BATCH_SIZE).length 0
        (chunk_recipients rs MAX_BATCH_SIZE) := by
  unfold batch_transfer
  rw [if_neg (by rw [hv]; simp), if_neg hb]

/-- C3: once validation and the balance pre-flight pass, `batch_transfer`
returns exactly one `BatchResult` per chunk, in chunk order, each determined
only by that chunk and its own submission outcome; a chunk whose submission
raises is recorded as a failed result carrying the exception message, and
every other chunk still gets its own result (the result list always has one
entry per chunk). -/
theorem c3_failure_isolation (env : ChainEnv) (rs : List Recipient)
    (hv : (validate_recipients env.va rs).1 = true)
    (hb : ¬ env.balance_tao <
      sumAmounts rs + totalSpraayFee (chunk_recipients rs MAX_BATCH_SIZE)) :
    (batch_transfer env rs).length = (chunk_recipients rs MAX_BATCH_SIZE).length ∧
    (∀ i ch, (chunk_recipients rs MAX_BATCH_SIZE)[i]? = some ch →
      (batch_transfer env rs)[i]? =
        some (chunkResult env (chunk_recipients rs MAX_BATCH_SIZE).length i ch)) ∧
    (∀ i msg, env.submit i = SubmitOutcome.exn msg →
      ∀ res, (batch_transfer env rs)[i]? = some res →
        res.success = false ∧
        res.message =
          batchTag i (chunk_recipients rs MAX_BATCH_SIZE).length ++
            " exception: " ++ msg) := by
  have hbt := batch_transfer_run env rs hv hb
  refine ⟨by rw [hbt, runChunks_length], ?_, ?_⟩
  · intro i ch hch
    rw [hbt, runChunks_getElem_zero, hch]
    rfl
  · intro i msg hsub res hres
    rw [hbt, runChunks_getElem_zero] at hres
    cases hch : (chunk_recipients rs MAX_BATCH_SIZE)[i]? with
    | none => rw [hch] at hres; exact absurd hres (by simp)
    | some ch =>
      rw [hch] at hres
      simp only [Option.map_some'] at hres
      have hr : res = chunkResult env (chunk_recipients rs MAX_BATCH_SIZE).length i ch :=
        (Option.some.inj hres).symm
      subst hr
      unfold chunkResult
      rw [hsub]
      exact ⟨rfl, rfl⟩

def c3env : ChainEnv :=
  { va := fun _ => true
    balance_tao := 2
    submit := fun _ => SubmitOutcome.exn "boom"
    block_hash := "bh"
    duration := fun _ => 0 }

def c3rs : List Recipient := [{ address := "5HGjWAeFDfFCWPsj", amount := 1 }]

/-- Witness for C3: a run whose only chunk's submission raises still yields
one failed result per chunk. -/
theorem c3_failure_isolation_witness :
    (batch_transfer c3env c3rs).length = (chunk_recipients c3rs MAX_BATCH_SIZE).length ∧
    ∀ res, (batch_transfer c3env c3rs)[0]? = some res → res.success = false := by
  have hv : (validate_recipients c3env.va c3rs).1 = true := by with_unfolding_all rfl
  have hb : ¬ c3env.balance_tao <
      sumAmounts c3rs + totalSpraayFee (chunk_recipients c3rs MAX_BATCH_SIZE) := by
    with_unfolding_all exact of_decide_eq_true rfl
  exact ⟨(c3_failure_isolation c3env c3rs hv hb).1,
         fun res h =>
           ((c3_failure_isolation c3env c3rs hv hb).2.2 0 "boom" rfl res h).1⟩

def c2env : ChainEnv :=
  { va := fun _ => true
    balance_tao := 1001 / 100
    submit := fun _ => SubmitOutcome.resp { success := true, message := "ok" }
    block_hash := "bh"
    duration := fun _ => 0 }

def c2rs : List Recipient := [{ address := "5GrwvaEF5zXb26Fz", amount := 10 }]

/-- C2 failing input: one valid 10-TAO recipient with balance 10.01 TAO.  The
run needs 10 TAO in transfers plus a 0.03 TAO service fee.  The synchronous
variant compares the balance against transfers plus fees, finds 10.01 < 10.03,
and aborts with a single failed result; the asynchronous variant compares the
balance against the transfer total only (10.01 >= 10), so its pre-flight
passes and it submits the chunk — returning a successful per-chunk result
instead of the single shortfall failure the claim requires. -/
theorem c2_async_preflight_divergence :
    (batch_transfer c2env c2rs).map BatchResult.success = [false] ∧
    (batch_transfer c2env c2rs).length = 1 ∧
    (async_batch_transfer c2env c2rs).map BatchResult.success = [true] ∧
    (async_batch_transfer c2env c2rs).map BatchResult.message =
      [batchTag 0 1 ++ " completed"] ∧
    c2env.balance_tao <
      sumAmounts c2rs + totalSpraayFee (chunk_recipients c2rs MAX_BATCH_SIZE) := by
  refine ⟨?_, ?_, ?_, ?_, ?_⟩
  · with_unfolding_all rfl
  · with_unfolding_all rfl
  · with_unfolding_all rfl
  · with_unfolding_all rfl
  · with_unfolding_all exact of_decide_eq_true rfl

/-- Index of the last (most recent) occurrence of `addr` in a list of
recipients, or `none` when absent.  Used to state the amended duplicate-scan
claim non-operationally. -/
def lastIndexOf (addr : String) : List Recipient → Option ℕ
  | [] => none
  | r :: rest =>
    match lastIndexOf addr rest with
    | some j => some (j + 1)
    | none => if r.address = addr then some 0 else none

/-- The validator's error stream as the amended claim words it: at index `i`,
the per-recipient errors of `rs[i]`, then — when the address already occurred
among the earlier recipients `pre` — one duplicate error citing the *most
recent* previous occurrence and the repeat (both 1-based). -/
def validateScanSpec (va : String → Bool) :
    List Recipient → ℕ → List Recipient → List String
  | [], _, _ => []
  | r :: rest, i, pre =>
    (r.validate va).map (wrapErr i r) ++
    (match lastIndexOf r.address pre with
     | some prev => [dupMsg prev i r.address]
     | none => []) ++
    validateScanSpec va rest (i + 1) (pre ++ [r])

theorem lastIndexOf_append (addr : String) (pre : List Recipient) (r : Recipient) :
    lastIndexOf addr (pre ++ [r]) =
      if r.address = addr then some pre.length else lastIndexOf addr pre := by
  induction pre with
  | nil =>
    simp only [List.nil_append, List.length_nil]
    show (match lastIndexOf addr [] with
          | some j => some (j + 1)
          | none => if r.address = addr then some 0 else none) = _
    rfl
  | cons p ps ih =>
    simp only [List.cons_append, List.length_cons]
    show (match lastIndexOf addr (ps ++ [r]) with
          | some j => some (j + 1)
          | none => if p.address = addr then some 0 else none) = _
    rw [ih]
    by_cases hra : r.address = addr
    · rw [if_pos hra, if_pos hra]
    · rw [if_neg hra, if_neg hra]
      rfl

theorem validateLoop_eq_scanSpec (va : String → Bool) :
    ∀ (rs pre : List Recipient) (seen : List (String × ℕ)),
      (∀ a, seen.lookup a = lastIndexOf a pre) →
      validateLoop va rs pre.length seen = validateScanSpec va rs pre.length pre := by
  intro rs
  induction rs with
  | nil => intro pre seen _; rfl
  | cons r rest ih =>
    intro pre seen hseen
    simp only [validateLoop, validateScanSpec]
    rw [hseen r.address]
    congr 1
    have hinv : ∀ a, ((r.address, pre.length) :: seen).lookup a =
        lastIndexOf a (pre ++ [r]) := by
      intro a
      rw [lastIndexOf_append]
      show (match a == r.address with
            | true => some pre.length
            | false => seen.lookup a) = _
      by_cases hra : r.address = a
      · rw [if_pos hra]
        have : (a == r.address) = true := beq_iff_eq.mpr hra.symm
        rw [this]
      · rw [if_neg hra]
        have : (a == r.address) = false := by
          rw [beq_eq_false_iff_ne]
          exact fun h => hra h.symm
        rw [this]
        exact hseen a
    have := ih (pre ++ [r]) ((r.address, pre.length) :: seen) hinv
    rw [List.length_append, List.length_cons, List.length_nil] at this
    exact this

def c5pair : List Recipient :=
  [{ address := "5A", amount := 1 }, { address := "5DupAddr", amount := 1 },
   { address := "5C", amount := 1 }, { address := "5D", amount := 1 },
   { address := "5DupAddr", amount := 1 }]

/-- C5 (amended): the duplicate scan maps each address to its *most recently
seen* index, so each repeat occurrence is reported against the immediately
preceding occurrence (not necessarily the first), both positions 1-based;
the whole validator output coincides with this characterization, and a list
whose only repetition is the same address at positions 2 and 5 yields exactly
one duplicate error citing "2" and "5". -/
theorem c5_amended_duplicate_scan (va : String → Bool) (rs : List Recipient) :
    validate_recipients va rs =
      ((validateScanSpec va rs 0 []).length == 0, validateScanSpec va rs 0 []) ∧
    (validate_recipients (fun _ => true) c5pair).2 =
      ["Duplicate address at positions 2 and 5: 5DupAddr..."] := by
  constructor
  · have h := validateLoop_eq_scanSpec va rs [] [] (fun a => rfl)
    rw [List.length_nil] at h
    unfold validate_recipients
    rw [h]
  · with_unfolding_all rfl

def c5triple : List Recipient :=
  [{ address := "5DupAddr", amount := 1 }, { address := "5B", amount := 1 },
   { address := "5DupAddr", amount := 1 }, { address := "5D", amount := 1 },
   { address := "5DupAddr", amount := 1 }]

/-- C5 counterexample: with the same address at 1-based positions 1, 3 and 5,
the scan's second duplicate error cites positions "3" and "5" — the most
recent previous occurrence — not the first occurrence "1" as the claim states;
no error citing "1 and 5" is emitted at all. -/
theorem c5_counterexample :
    (validate_recipients (fun _ => true) c5triple).2 =
      ["Duplicate address at positions 1 and 3: 5DupAddr...",
       "Duplicate address at positions 3 and 5: 5DupAddr..."] ∧
    ¬ "Duplicate address at positions 1 and 5: 5DupAddr..." ∈
        (validate_recipients (fun _ => true) c5triple).2 := by
  have h : (validate_recipients (fun _ => true) c5triple).2 =
      ["Duplicate address at positions 1 and 3: 5DupAddr...",
       "Duplicate address at positions 3 and 5: 5DupAddr..."] := by
    with_unfolding_all rfl
  refine ⟨h, ?_⟩
  rw [h]
  decide

end SpraayTao
